import Mathlib

/-!
# Conference-game content pipeline, shallow embedding

Lean model of the content-serving core of the repository:

* `backend/src/services/configMapLoader.ts` — the `ConfigMapLoader` class
  (TTL cache, reload, JSON extraction, zod validation, fallback handling);
* the zod schemas of `backend/src/types/content.ts` (as reproduced verbatim in
  `backend/test/configmap-integration.test.ts`);
* `backend/src/services/contentService.ts` and the `GET /api/sentences` route;
* the `errorHandler` middleware of `backend/src/middleware/errorHandler.ts`;
* `frontend/src/hooks/useContentManager.ts` — history tracking and random
  content selection.

The code is single-threaded JavaScript; stateful methods are modelled as pure
state-transition functions.  `Date.now()` values are passed in explicitly as
integers.  Disk reads are passed in as an explicit `DiskRead` outcome.
-/

namespace ConferenceGames

/-- A sentence prompt `{ id, text, category }` (`types/content.ts`). -/
structure Sentence where
  id : String
  text : String
  category : String
deriving DecidableEq, Repr

/-- An acronym `{ id, term, meaning }` (`types/content.ts`). -/
structure Acronym where
  id : String
  term : String
  meaning : String
deriving DecidableEq, Repr

/-- `ContentConfig`: the whole loaded content set. -/
structure ContentConfig where
  sentences : List Sentence
  acronyms : List Acronym
deriving DecidableEq, Repr

/-! ## JSON values and the JavaScript idioms used by the loader -/

/-- A JSON value as returned by `JSON.parse`. -/
inductive Json where
  | null
  | bool (b : Bool)
  | num (n : Int)
  | str (s : String)
  | arr (items : List Json)
  | obj (fields : List (String × Json))
deriving Repr

/-- JavaScript truthiness of a JSON value (objects and arrays are always
truthy, including the empty array). -/
def jsTruthy : Json → Bool
  | .null => false
  | .bool b => b
  | .num n => n != 0
  | .str s => s != ""
  | .arr _ => true
  | .obj _ => true

/-- JavaScript property access `v[k]`: a present object field, otherwise
`undefined` (modelled as `none`; property access never yields a value on
arrays parsed from JSON, strings, numbers or booleans). -/
def jsGetField (v : Json) (k : String) : Option Json :=
  match v with
  | .obj fields => fields.lookup k
  | _ => none

/-- The extraction idiom `file.k || file` of `ConfigMapLoader.loadContent`
(line 168: `sentences: sentencesFile.sentences || sentencesFile`): use the
field when it exists and is truthy, otherwise the whole parsed file. -/
def extractField (file : Json) (k : String) : Json :=
  match jsGetField file k with
  | some v => if jsTruthy v then v else file
  | none => file

/-! ## The zod schemas (`types/content.ts`)

`SentenceSchema` / `AcronymSchema` are `z.object`s of strings with length
bounds; zod accepts extra keys and requires each listed key to be a string
satisfying the refinements.  String lengths are counted in characters
(JavaScript counts UTF-16 units; these agree on the basic plane). -/

/-- `SentenceSchema.safeParse` on one array element. -/
def parseSentenceJson : Json → Option Sentence
  | .obj fields =>
    match fields.lookup "id", fields.lookup "text", fields.lookup "category" with
    | some (.str i), some (.str t), some (.str c) =>
      if 1 ≤ i.length ∧ 1 ≤ t.length ∧ t.length ≤ 500
          ∧ 1 ≤ c.length ∧ c.length ≤ 100 then
        some ⟨i, t, c⟩
      else none
    | _, _, _ => none
  | _ => none

/-- `AcronymSchema.safeParse` on one array element. -/
def parseAcronymJson : Json → Option Acronym
  | .obj fields =>
    match fields.lookup "id", fields.lookup "term", fields.lookup "meaning" with
    | some (.str i), some (.str t), some (.str m) =>
      if 1 ≤ i.length ∧ 1 ≤ t.length ∧ t.length ≤ 50
          ∧ 1 ≤ m.length ∧ m.length ≤ 500 then
        some ⟨i, t, m⟩
      else none
    | _, _, _ => none
  | _ => none

/-- Element-wise parse of a JSON list; fails when any element fails
(zod reports all issues but accepts exactly when every element parses). -/
def decodeList {α : Type} (f : Json → Option α) : List Json → Option (List α)
  | [] => some []
  | j :: js =>
    match f j, decodeList f js with
    | some a, some rest => some (a :: rest)
    | _, _ => none

/-- `z.array(SentenceSchema)`: requires an array, parses each element. -/
def decodeSentences : Json → Option (List Sentence)
  | .arr items => decodeList parseSentenceJson items
  | _ => none

/-- `z.array(AcronymSchema)`. -/
def decodeAcronyms : Json → Option (List Acronym)
  | .arr items => decodeList parseAcronymJson items
  | _ => none

/-- The body of `ConfigMapLoader.loadContent` after both files were read and
parsed: extract the arrays (wrapped-object or bare-array form) and run
`ContentConfigSchema.safeParse`; `none` models the thrown
"Content validation failed" error. -/
def parseContentConfig (sentencesFile acronymsFile : Json) : Option ContentConfig :=
  let sJson := extractField sentencesFile "sentences"
  let aJson := extractField acronymsFile "acronyms"
  match decodeSentences sJson, decodeAcronyms aJson with
  | some ss, some acs => some ⟨ss, acs⟩
  | _, _ => none

/-! ## The `ConfigMapLoader` state machine (`configMapLoader.ts`) -/

/-- Constructor options (`ConfigMapLoaderOptions`); the path and watch flag
only select which files are read and are not needed here. -/
structure LoaderOptions where
  cacheTimeout : Int
  fallbackContent : Option ContentConfig
deriving DecidableEq, Repr

/-- The mutable fields of `ConfigMapLoader` relevant to content serving.
(`isLoading` is a re-entrancy guard that is always `false` at the entry of a
public call in single-threaded execution, and `watchers` only holds OS
handles.) -/
structure LoaderState where
  cachedContent : Option ContentConfig
  lastLoadTime : Int
deriving DecidableEq, Repr

/-- Outcome of one attempt to read both content files from disk:
either both files were read and parsed as JSON, or `loadJsonFile` threw
(missing file or `JSON.parse` failure). -/
inductive DiskRead where
  | ok (sentencesFile acronymsFile : Json)
  | ioError
deriving Repr

/-- The try-block of `loadContent` up to validation: `none` when reading,
parsing or schema validation fails. -/
def loadAttempt : DiskRead → Option ContentConfig
  | .ioError => none
  | .ok sFile aFile => parseContentConfig sFile aFile

/-- Result of `loadContent`: the updated state and whether the call threw. -/
structure LoadOutcome where
  state : LoaderState
  threw : Bool
deriving DecidableEq, Repr

/-- `ConfigMapLoader.loadContent` (lines 145-203): on success cache the
validated content and stamp the time; on failure use the fallback when no
content is cached, rethrow when there is neither cache nor fallback, and
otherwise keep the previously cached content. -/
def loadContent (opts : LoaderOptions) (st : LoaderState) (disk : DiskRead)
    (now : Int) : LoadOutcome :=
  match loadAttempt disk with
  | some cfg => ⟨⟨some cfg, now⟩, false⟩
  | none =>
    match st.cachedContent, opts.fallbackContent with
    | some _, _ => ⟨st, false⟩
    | none, some fb => ⟨⟨some fb, now⟩, false⟩
    | none, none => ⟨st, true⟩

/-- `ConfigMapLoader.reloadContent` (lines 82-85): clear the cache, then
`loadContent`. -/
def reloadContent (opts : LoaderOptions) (st : LoaderState) (disk : DiskRead)
    (now : Int) : LoadOutcome :=
  loadContent opts { st with cachedContent := none } disk now

/-- Result of `getContent`: the updated state, whether a disk read happened,
and the returned content (`none` models a thrown error). -/
structure GetOutcome where
  state : LoaderState
  readDisk : Bool
  result : Option ContentConfig
deriving DecidableEq, Repr

/-- `ConfigMapLoader.getContent` (lines 61-77): serve the cache while
`now - lastLoadTime < cacheTimeout`, otherwise `loadContent` and throw when
no content is available afterwards. -/
def getContent (opts : LoaderOptions) (st : LoaderState) (disk : DiskRead)
    (now : Int) : GetOutcome :=
  if st.cachedContent.isSome ∧ now - st.lastLoadTime < opts.cacheTimeout then
    ⟨st, false, st.cachedContent⟩
  else
    let r := loadContent opts st disk now
    ⟨r.state, true, if r.threw then none else r.state.cachedContent⟩

/-- ASCII lowercasing as used for the category comparison; JavaScript
`toLowerCase` additionally folds non-ASCII letters, which the content at
issue does not contain. -/
def jsToLower (s : String) : String :=
  ⟨s.data.map Char.toLower⟩

/-- `ConfigMapLoader.getSentences` (lines 90-100) applied to loaded content:
`if (!category)` (absent or empty string) returns everything, otherwise a
case-insensitive category filter. -/
def loaderGetSentences (content : ContentConfig) (category : Option String) :
    List Sentence :=
  match category with
  | none => content.sentences
  | some c =>
    if c = "" then content.sentences
    else content.sentences.filter (fun s => jsToLower s.category == jsToLower c)

/-- First-occurrence de-duplication: the insertion order a JavaScript `Set`
iterates. -/
def setDedupAux (seen : List String) : List String → List String
  | [] => []
  | x :: xs => if x ∈ seen then setDedupAux seen xs else x :: setDedupAux (x :: seen) xs

/-- `[...new Set(l)]`. -/
def setDedup (l : List String) : List String :=
  setDedupAux [] l

/-- `ConfigMapLoader.getCategories` (lines 113-117):
`[...new Set(content.sentences.map(s => s.category))].sort()`.  The default
`sort()` comparator is lexicographic on the strings (UTF-16 units in
JavaScript, code points here; these agree outside surrogate corner cases). -/
def getCategories (content : ContentConfig) : List String :=
  List.insertionSort (fun a b => a ≤ b) (setDedup (content.sentences.map Sentence.category))

/-! ## `ContentService.getSentences` and the `GET /api/sentences` route -/

/-- The raw query of `GET /api/sentences` after `z.coerce.number` coercion:
each parameter is absent or a number. -/
structure SentencesQuery where
  category : Option String
  limit : Option Int
  offset : Option Int
deriving DecidableEq, Repr

/-- `SentencesQuerySchema.safeParse` (`types/content.ts`):
`limit` defaults to 50 and must lie in `[1, 100]`, `offset` defaults to 0 and
must be nonnegative; `none` models the `ValidationError` (HTTP 400). -/
def parseSentencesQuery (q : SentencesQuery) :
    Option (Option String × Int × Int) :=
  let limit := q.limit.getD 50
  let offset := q.offset.getD 0
  if 1 ≤ limit ∧ limit ≤ 100 ∧ 0 ≤ offset then some (q.category, limit, offset)
  else none

/-- The JSON body produced by the `/api/sentences` handler (pagination part). -/
structure SentencesApiResponse where
  data : List Sentence
  total : Nat
  limit : Int
  offset : Int
  hasMore : Bool
deriving DecidableEq, Repr

/-- The composed `GET /api/sentences` pipeline on loaded content
(route handler lines 260-292 and `ContentService.getSentences` lines 58-87):
validate the query, filter by category through the loader, paginate with
`sentences.slice(offset, offset + limit)`, and report
`total` (pre-pagination length) and `hasMore := offset + limit < total`. -/
def handleGetSentences (content : ContentConfig) (q : SentencesQuery) :
    Option SentencesApiResponse :=
  match parseSentencesQuery q with
  | none => none
  | some (cat, limit, offset) =>
    let sentences := loaderGetSentences content cat
    let paginated := (sentences.drop offset.toNat).take limit.toNat
    some { data := paginated
           total := sentences.length
           limit := limit
           offset := offset
           hasMore := decide (offset + limit < (sentences.length : Int)) }

/-! ## The error-handler middleware (`middleware/errorHandler.ts`) -/

/-- The error classes distinguished by `errorHandler`; `other` is any other
`Error`, carrying the optional `statusCode` of the `ApiError` interface. -/
inductive ApiErrorKind where
  | zodError
  | validationError
  | notFoundError
  | databaseError
  | other (statusCode : Option Nat)
deriving DecidableEq, Repr

/-- The HTTP status `errorHandler` responds with (lines 35-102).  A present
`statusCode` is echoed when truthy (`if (apiError.statusCode)`), so a
`statusCode` of 0 falls through to 500. -/
def errorHandlerStatus : ApiErrorKind → Nat
  | .zodError => 400
  | .validationError => 400
  | .notFoundError => 404
  | .databaseError => 500
  | .other (some sc) => if sc ≠ 0 then sc else 500
  | .other none => 500

/-! ## The frontend content manager (`useContentManager.ts`) -/

/-- `addToHistory` (lines 178-188): drop any existing occurrence of the id,
prepend it, truncate to `maxHistorySize`. -/
def addToHistory (history : List String) (id : String) (maxHistorySize : Nat) :
    List String :=
  (id :: history.filter (fun x => x != id)).take maxHistorySize

/-- `getFilteredSentences` (lines 232-235): `if (!category)` (absent or empty)
returns everything, otherwise an exact (case-sensitive) category filter. -/
def getFilteredSentences (sentences : List Sentence) (category : Option String) :
    List Sentence :=
  match category with
  | none => sentences
  | some c =>
    if c = "" then sentences
    else sentences.filter (fun s => s.category == c)

/-- `getSentencesByCategory` (lines 325-327): exact category filter. -/
def getSentencesByCategory (sentences : List Sentence) (category : String) :
    List Sentence :=
  sentences.filter (fun s => s.category == category)

/-- `getRandomSentence` (lines 237-255).  The value of
`Math.floor(Math.random() * candidates.length)` is modelled by
`rand % candidates.length` for an arbitrary `rand`, which ranges over exactly
the indices the code can draw.  Returns the selected sentence and the updated
history. -/
def getRandomSentence (sentences : List Sentence) (history : List String)
    (maxHistorySize : Nat) (category : Option String) (rand : Nat) :
    Option (Sentence × List String) :=
  let available := getFilteredSentences sentences category
  if available.isEmpty then none
  else
    let unshown := available.filter (fun s => !(history.contains s.id))
    let candidates := if unshown.length > 0 then unshown else available
    match candidates[rand % candidates.length]? with
    | some s => some (s, addToHistory history s.id maxHistorySize)
    | none => none

/-- `getRandomAcronym` (lines 257-273), same structure without categories. -/
def getRandomAcronym (acronyms : List Acronym) (history : List String)
    (maxHistorySize : Nat) (rand : Nat) : Option (Acronym × List String) :=
  if acronyms.isEmpty then none
  else
    let unshown := acronyms.filter (fun a => !(history.contains a.id))
    let candidates := if unshown.length > 0 then unshown else acronyms
    match candidates[rand % candidates.length]? with
    | some a => some (a, addToHistory history a.id maxHistorySize)
    | none => none

/-! ## Concrete sample data for witnesses -/

/-- A one-sentence content set used to instantiate theorems. -/
def sampleContent : ContentConfig := ⟨[⟨"1", "t", "C"⟩], []⟩

/-- The query of a plain `GET /api/sentences` with no parameters. -/
def sampleQuery : SentencesQuery := ⟨none, none, none⟩

/-- The response the handler produces for `sampleContent` and `sampleQuery`. -/
def sampleResponse : SentencesApiResponse := ⟨[⟨"1", "t", "C"⟩], 1, 50, 0, false⟩

/-- A well-formed sentence object as JSON. -/
def sampleSentenceJson : Json :=
  .obj [("id", .str "1"), ("text", .str "t"), ("category", .str "C")]

/-- A well-formed acronym object as JSON. -/
def sampleAcronymJson : Json :=
  .obj [("id", .str "x"), ("term", .str "T"), ("meaning", .str "M")]

/-- A sentences file in the wrapped form `{"sentences": [...]}`. -/
def sampleWrappedSentences : Json := .obj [("sentences", .arr [sampleSentenceJson])]

/-- An acronyms file in the bare top-level-array form. -/
def sampleBareAcronyms : Json := .arr [sampleAcronymJson]

/-! ## Helper lemmas -/

/-- A string of positive length is not the empty string. -/
theorem ne_empty_of_one_le_length {s : String} (h : 1 ≤ s.length) : s ≠ "" := by
  intro he
  subst he
  exact absurd h (by decide)

/-- Inversion of the `SentencesQuerySchema` parse. -/
theorem parseSentencesQuery_some {q : SentencesQuery} {cat : Option String}
    {limit offset : Int}
    (h : parseSentencesQuery q = some (cat, limit, offset)) :
    cat = q.category ∧ limit = q.limit.getD 50 ∧ offset = q.offset.getD 0 ∧
    1 ≤ limit ∧ limit ≤ 100 ∧ 0 ≤ offset := by
  unfold parseSentencesQuery at h
  dsimp only at h
  split at h
  · next hv =>
    cases h
    exact ⟨rfl, rfl, rfl, hv.1, hv.2.1, hv.2.2⟩
  · exact Option.noConfusion h

theorem mem_setDedupAux {a : String} : ∀ {seen l : List String},
    a ∈ setDedupAux seen l ↔ a ∈ l ∧ a ∉ seen := by
  intro seen l
  induction l generalizing seen with
  | nil => simp [setDedupAux]
  | cons x xs ih =>
    by_cases hx : x ∈ seen
    · rw [setDedupAux, if_pos hx, ih]
      constructor
      · rintro ⟨hm, hs⟩
        exact ⟨List.mem_cons_of_mem _ hm, hs⟩
      · rintro ⟨hm, hs⟩
        rcases List.mem_cons.mp hm with rfl | hm
        · exact absurd hx hs
        · exact ⟨hm, hs⟩
    · rw [setDedupAux, if_neg hx]
      by_cases hax : a = x
      · subst hax
        simp [hx]
      · simp only [List.mem_cons, hax, false_or, ih, List.mem_cons]

theorem nodup_setDedupAux : ∀ (seen l : List String), (setDedupAux seen l).Nodup := by
  intro seen l
  induction l generalizing seen with
  | nil => simp [setDedupAux]
  | cons x xs ih =>
    by_cases hx : x ∈ seen
    · rw [setDedupAux, if_pos hx]
      exact ih seen
    · rw [setDedupAux, if_neg hx]
      refine List.nodup_cons.mpr ⟨?_, ih (x :: seen)⟩
      intro hmem
      exact (mem_setDedupAux.mp hmem).2 (List.mem_cons_self x seen)

/-! ## Claim theorems -/

/-- C10: `getCategories()` returns exactly the distinct categories occurring in
the current sentences array, sorted ascending, each exactly once. -/
theorem getCategories_sorted_distinct (content : ContentConfig) :
    (getCategories content).Sorted (fun a b => a ≤ b) ∧
    (getCategories content).Nodup ∧
    ∀ c, c ∈ getCategories content ↔ ∃ s ∈ content.sentences, s.category = c := by
  have hperm := List.perm_insertionSort (fun a b : String => a ≤ b)
      (setDedup (content.sentences.map Sentence.category))
  refine ⟨List.sorted_insertionSort _ _, ?_, ?_⟩
  · exact hperm.nodup_iff.mpr (nodup_setDedupAux [] _)
  · intro c
    rw [getCategories, hperm.mem_iff, setDedup, mem_setDedupAux]
    simp [List.mem_map]

/-- C8: `addToHistory` keeps the history bounded by `maxHistorySize`, free of
duplicate ids, most recent first, and when an addition to a full history of
a fresh id would exceed the cap it is exactly the oldest (last) entry that is
evicted. -/
theorem addToHistory_invariant (history : List String) (id : String)
    (maxHistorySize : Nat) (hnd : history.Nodup) :
    (addToHistory history id maxHistorySize).length ≤ maxHistorySize ∧
    (addToHistory history id maxHistorySize).Nodup ∧
    (1 ≤ maxHistorySize → (addToHistory history id maxHistorySize).head? = some id) ∧
    (1 ≤ maxHistorySize → history.length = maxHistorySize → id ∉ history →
      addToHistory history id maxHistorySize = id :: history.dropLast) := by
  refine ⟨List.length_take_le _ _, ?_, ?_, ?_⟩
  · have hfilter : (history.filter (fun x => x != id)).Nodup := hnd.filter _
    have hid : id ∉ history.filter (fun x => x != id) := by
      intro hmem
      have h2 := (List.mem_filter.mp hmem).2
      simp at h2
    exact ((List.take_sublist _ _).nodup (List.nodup_cons.mpr ⟨hid, hfilter⟩))
  · intro hmax
    obtain ⟨k, rfl⟩ : ∃ k, maxHistorySize = k + 1 := ⟨maxHistorySize - 1, by omega⟩
    rw [addToHistory, List.take_succ_cons]
    rfl
  · intro hmax hlen hid
    have hf : history.filter (fun x => x != id) = history := by
      refine List.filter_eq_self.mpr (fun x hx => ?_)
      simp only [bne_iff_ne, ne_eq]
      intro he
      exact hid (he ▸ hx)
    obtain ⟨k, rfl⟩ : ∃ k, maxHistorySize = k + 1 := ⟨maxHistorySize - 1, by omega⟩
    rw [addToHistory, hf, List.take_succ_cons, List.dropLast_eq_take, hlen]
    simp

/-- C1 (evaluating the code at the failing input): after a successful load,
`reloadContent` during a failing disk read discards the previous content and
rethrows when no fallback is configured (first conjunct) or silently replaces
it with the fallback (third conjunct), whereas the plain `loadContent` path
taken by `getContent` does keep the previous content without raising (second
conjunct). -/
theorem reloadContent_discards_previous_on_failure :
    reloadContent ⟨1000, none⟩ ⟨some ⟨[⟨"s1", "t", "C"⟩], [⟨"a1", "T", "M"⟩]⟩, 0⟩
        .ioError 5 = ⟨⟨none, 0⟩, true⟩ ∧
    loadContent ⟨1000, none⟩ ⟨some ⟨[⟨"s1", "t", "C"⟩], [⟨"a1", "T", "M"⟩]⟩, 0⟩
        .ioError 5 = ⟨⟨some ⟨[⟨"s1", "t", "C"⟩], [⟨"a1", "T", "M"⟩]⟩, 0⟩, false⟩ ∧
    reloadContent ⟨1000, some ⟨[⟨"fb", "f", "F"⟩], []⟩⟩
        ⟨some ⟨[⟨"s1", "t", "C"⟩], [⟨"a1", "T", "M"⟩]⟩, 0⟩ .ioError 5 =
      ⟨⟨some ⟨[⟨"fb", "f", "F"⟩], []⟩, 5⟩, false⟩ :=
  ⟨rfl, rfl, rfl⟩

/-- C7: the error handler maps `ZodError` and `ValidationError` to 400,
`NotFoundError` to 404, and any error without a truthy explicit `statusCode`
to one of the conventional codes, with plain errors getting 500. -/
theorem errorHandler_status_spec :
    errorHandlerStatus .zodError = 400 ∧
    errorHandlerStatus .validationError = 400 ∧
    errorHandlerStatus .notFoundError = 404 ∧
    errorHandlerStatus (.other none) = 500 ∧
    ∀ e : ApiErrorKind, (∀ sc, e ≠ .other (some sc)) →
      (errorHandlerStatus e = 400 ∨ errorHandlerStatus e = 404 ∨
        errorHandlerStatus e = 503 ∨ errorHandlerStatus e = 500) := by
  refine ⟨rfl, rfl, rfl, rfl, ?_⟩
  intro e he
  cases e with
  | zodError => exact Or.inl rfl
  | validationError => exact Or.inl rfl
  | notFoundError => exact Or.inr (Or.inl rfl)
  | databaseError => exact Or.inr (Or.inr (Or.inr rfl))
  | other sc =>
    cases sc with
    | none => exact Or.inr (Or.inr (Or.inr rfl))
    | some sc => exact absurd rfl (he sc)

/-- Witness for C7 at the concrete input `DatabaseError`. -/
theorem errorHandler_status_spec_witness :
    errorHandlerStatus .databaseError = 400 ∨ errorHandlerStatus .databaseError = 404 ∨
      errorHandlerStatus .databaseError = 503 ∨ errorHandlerStatus .databaseError = 500 :=
  errorHandler_status_spec.2.2.2.2 .databaseError (fun sc h => by simp at h)

/-- Witness for C8 at a concrete full history. -/
theorem addToHistory_invariant_witness :
    (addToHistory ["b", "c"] "a" 2).length ≤ 2 ∧
    (addToHistory ["b", "c"] "a" 2).Nodup ∧
    (1 ≤ 2 → (addToHistory ["b", "c"] "a" 2).head? = some "a") ∧
    (1 ≤ 2 → ["b", "c"].length = 2 → "a" ∉ ["b", "c"] →
      addToHistory ["b", "c"] "a" 2 = "a" :: ["b", "c"].dropLast) :=
  addToHistory_invariant ["b", "c"] "a" 2 (by decide)

/-- C3: `getContent()` serves the cached `ContentConfig` unchanged and without
a disk read while its age is strictly below `cacheTimeout`; an empty or
expired cache forces a disk read; and the call throws exactly when the load
fails with no previously cached content and no fallback. -/
theorem getContent_cache_spec (opts : LoaderOptions) (st : LoaderState)
    (disk : DiskRead) (now : Int) :
    (∀ c, st.cachedContent = some c → now - st.lastLoadTime < opts.cacheTimeout →
      getContent opts st disk now = ⟨st, false, some c⟩) ∧
    ((st.cachedContent = none ∨ opts.cacheTimeout ≤ now - st.lastLoadTime) →
      (getContent opts st disk now).readDisk = true) ∧
    ((getContent opts st disk now).result = none ↔
      st.cachedContent = none ∧ loadAttempt disk = none ∧
        opts.fallbackContent = none) := by
  refine ⟨?_, ?_, ?_⟩
  · intro c hc hfresh
    rw [getContent, if_pos ⟨by rw [hc]; rfl, hfresh⟩, hc]
  · intro hmiss
    rw [getContent, if_neg]
    rintro ⟨hsome, hfresh⟩
    rcases hmiss with hnone | hstale
    · rw [hnone] at hsome
      exact Bool.noConfusion hsome
    · omega
  · by_cases hcond : st.cachedContent.isSome ∧ now - st.lastLoadTime < opts.cacheTimeout
    · rw [getContent, if_pos hcond]
      obtain ⟨c, hc⟩ := Option.isSome_iff_exists.mp hcond.1
      simp [hc]
    · rw [getContent, if_neg hcond]
      cases hatt : loadAttempt disk with
      | some cfg => simp [loadContent, hatt]
      | none =>
        cases hcache : st.cachedContent with
        | some c =>
          cases hfb : opts.fallbackContent <;> simp [loadContent, hatt, hcache, hfb]
        | none =>
          cases hfb : opts.fallbackContent with
          | some fb => simp [loadContent, hatt, hcache, hfb]
          | none => simp [loadContent, hatt, hcache, hfb]

/-- Witness for C3: a fresh cache is served as-is; an empty cache forces a
disk read; a failing load with empty cache and no fallback throws. -/
theorem getContent_cache_spec_witness :
    getContent ⟨1000, none⟩ ⟨some sampleContent, 0⟩ .ioError 500 =
      ⟨⟨some sampleContent, 0⟩, false, some sampleContent⟩ ∧
    (getContent ⟨1000, none⟩ ⟨none, 0⟩ .ioError 500).readDisk = true ∧
    ((getContent ⟨1000, none⟩ ⟨none, 0⟩ .ioError 500).result = none ↔
      (none : Option ContentConfig) = none ∧ loadAttempt .ioError = none ∧
        (none : Option ContentConfig) = none) :=
  ⟨(getContent_cache_spec ⟨1000, none⟩ ⟨some sampleContent, 0⟩ .ioError 500).1
      sampleContent rfl (by decide),
    (getContent_cache_spec ⟨1000, none⟩ ⟨none, 0⟩ .ioError 500).2.1 (Or.inl rfl),
    (getContent_cache_spec ⟨1000, none⟩ ⟨none, 0⟩ .ioError 500).2.2⟩

/-- C6: for every valid `GET /api/sentences` query the response data is the
slice `[offset, offset + limit)` of the category-filtered list, `limit`
defaults to 50 and is bounded by 100, `offset` defaults to 0, `total` is the
size of the filtered list before pagination, and
`hasMore ↔ offset + limit < total`. -/
theorem sentences_api_pagination_spec (content : ContentConfig)
    (q : SentencesQuery) (r : SentencesApiResponse)
    (h : handleGetSentences content q = some r) :
    r.limit = q.limit.getD 50 ∧ 1 ≤ r.limit ∧ r.limit ≤ 100 ∧
    r.offset = q.offset.getD 0 ∧ 0 ≤ r.offset ∧
    r.data = ((loaderGetSentences content q.category).drop r.offset.toNat).take
      r.limit.toNat ∧
    r.total = (loaderGetSentences content q.category).length ∧
    (r.hasMore = true ↔ r.offset + r.limit < (r.total : Int)) := by
  obtain ⟨rdata, rtotal, rlimit, roffset, rhasMore⟩ := r
  cases hp : parseSentencesQuery q with
  | none =>
    unfold handleGetSentences at h
    rw [hp] at h
    exact Option.noConfusion h
  | some triple =>
    obtain ⟨cat, limit, offset⟩ := triple
    obtain ⟨hcat, hlim, hoff, h1, h2, h3⟩ := parseSentencesQuery_some hp
    unfold handleGetSentences at h
    rw [hp] at h
    have h' : some (⟨(((loaderGetSentences content cat).drop offset.toNat).take
          limit.toNat), (loaderGetSentences content cat).length, limit, offset,
          decide (offset + limit < ((loaderGetSentences content cat).length : Int))⟩ :
        SentencesApiResponse) =
        some ⟨rdata, rtotal, rlimit, roffset, rhasMore⟩ := h
    obtain ⟨hdata, htotal, hlimit, hoffset, hmore⟩ :=
      SentencesApiResponse.mk.injEq .. ▸ (Option.some.injEq .. ▸ h')
    subst hcat hlim hoff
    refine ⟨hlimit.symm, hlimit ▸ h1, hlimit ▸ h2, hoffset.symm, hoffset ▸ h3,
      ?_, htotal.symm, ?_⟩
    · rw [← hdata, ← hlimit, ← hoffset]
    · rw [← hmore, ← htotal, ← hoffset, ← hlimit]
      simp [decide_eq_true_eq]

/-- Witness for C6 at a parameterless query over a one-sentence content set. -/
theorem sentences_api_pagination_spec_witness :
    sampleResponse.limit = sampleQuery.limit.getD 50 ∧ 1 ≤ sampleResponse.limit ∧
    sampleResponse.limit ≤ 100 ∧
    sampleResponse.offset = sampleQuery.offset.getD 0 ∧ 0 ≤ sampleResponse.offset ∧
    sampleResponse.data = ((loaderGetSentences sampleContent
      sampleQuery.category).drop sampleResponse.offset.toNat).take
      sampleResponse.limit.toNat ∧
    sampleResponse.total = (loaderGetSentences sampleContent
      sampleQuery.category).length ∧
    (sampleResponse.hasMore = true ↔
      sampleResponse.offset + sampleResponse.limit < (sampleResponse.total : Int)) :=
  sentences_api_pagination_spec sampleContent sampleQuery sampleResponse (by decide)

/-- Every element of a successfully decoded list comes from a successfully
parsed element of the input. -/
theorem decodeList_mem {α : Type} {f : Json → Option α} :
    ∀ {l : List Json} {r : List α}, decodeList f l = some r →
      ∀ b ∈ r, ∃ j ∈ l, f j = some b := by
  intro l
  induction l with
  | nil =>
    intro r h b hb
    cases h
    simp at hb
  | cons j js ih =>
    intro r h b hb
    unfold decodeList at h
    cases hfj : f j with
    | none =>
      rw [hfj] at h
      simp at h
    | some a =>
      cases hrest : decodeList f js with
      | none =>
        rw [hfj, hrest] at h
        simp at h
      | some rest =>
        rw [hfj, hrest] at h
        cases h
        rcases List.mem_cons.mp hb with rfl | hb2
        · exact ⟨j, List.mem_cons_self _ _, hfj⟩
        · obtain ⟨j', hj', hfj'⟩ := ih hrest b hb2
          exact ⟨j', List.mem_cons_of_mem _ hj', hfj'⟩

/-- Inversion of the zod `SentenceSchema` parse: the length refinements hold
of the result. -/
theorem parseSentenceJson_bounds {j : Json} {s : Sentence}
    (h : parseSentenceJson j = some s) :
    1 ≤ s.id.length ∧ 1 ≤ s.category.length := by
  unfold parseSentenceJson at h
  split at h
  · split at h
    · split at h
      · next hcond =>
        cases h
        exact ⟨hcond.1, hcond.2.2.2.1⟩
      · exact Option.noConfusion h
    · exact Option.noConfusion h
  · exact Option.noConfusion h

/-- Inversion of the zod `AcronymSchema` parse. -/
theorem parseAcronymJson_bounds {j : Json} {a : Acronym}
    (h : parseAcronymJson j = some a) : 1 ≤ a.id.length := by
  unfold parseAcronymJson at h
  split at h
  · split at h
    · split at h
      · next hcond =>
        cases h
        exact hcond.1
      · exact Option.noConfusion h
    · exact Option.noConfusion h
  · exact Option.noConfusion h

/-- Every sentence of a decoded sentences file was accepted by
`SentenceSchema`. -/
theorem decodeSentences_mem {j : Json} {ss : List Sentence}
    (h : decodeSentences j = some ss) :
    ∀ s ∈ ss, ∃ je, parseSentenceJson je = some s := by
  unfold decodeSentences at h
  split at h
  · intro s hs
    obtain ⟨je, _, hje⟩ := decodeList_mem h s hs
    exact ⟨je, hje⟩
  · exact Option.noConfusion h

/-- Every acronym of a decoded acronyms file was accepted by
`AcronymSchema`. -/
theorem decodeAcronyms_mem {j : Json} {acs : List Acronym}
    (h : decodeAcronyms j = some acs) :
    ∀ a ∈ acs, ∃ je, parseAcronymJson je = some a := by
  unfold decodeAcronyms at h
  split at h
  · intro a ha
    obtain ⟨je, _, hje⟩ := decodeList_mem h a ha
    exact ⟨je, hje⟩
  · exact Option.noConfusion h

/-- C5 counterexample: a content set whose sentences array repeats the id
`"a"` passes `ContentConfigSchema` validation unchanged — the schema has no
uniqueness refinement. -/
theorem validation_accepts_duplicate_ids :
    parseContentConfig
        (.obj [("sentences", .arr
          [.obj [("id", .str "a"), ("text", .str "t"), ("category", .str "Cat")],
            .obj [("id", .str "a"), ("text", .str "u"), ("category", .str "Cat")]])])
        (.arr [.obj [("id", .str "x"), ("term", .str "T"), ("meaning", .str "M")]]) =
      some ⟨[⟨"a", "t", "Cat"⟩, ⟨"a", "u", "Cat"⟩], [⟨"x", "T", "M"⟩]⟩ ∧
    ¬ ([(⟨"a", "t", "Cat"⟩ : Sentence), ⟨"a", "u", "Cat"⟩].map Sentence.id).Nodup := by
  exact ⟨by decide, by decide⟩

/-- C5 as amended: every content set accepted by validation has non-empty
ids and non-empty sentence categories; uniqueness of ids is not enforced. -/
theorem validated_content_nonempty_fields (sFile aFile : Json)
    (cfg : ContentConfig) (h : parseContentConfig sFile aFile = some cfg) :
    (∀ s ∈ cfg.sentences, s.id ≠ "" ∧ s.category ≠ "") ∧
    ∀ a ∈ cfg.acronyms, a.id ≠ "" := by
  unfold parseContentConfig at h
  dsimp only at h
  cases hs : decodeSentences (extractField sFile "sentences") with
  | none =>
    rw [hs] at h
    simp at h
  | some ss =>
    cases ha : decodeAcronyms (extractField aFile "acronyms") with
    | none =>
      rw [hs, ha] at h
      simp at h
    | some acs =>
      rw [hs, ha] at h
      cases h
      constructor
      · intro s hsm
        obtain ⟨je, hje⟩ := decodeSentences_mem hs s hsm
        obtain ⟨h1, h2⟩ := parseSentenceJson_bounds hje
        exact ⟨ne_empty_of_one_le_length h1, ne_empty_of_one_le_length h2⟩
      · intro a ham
        obtain ⟨je, hje⟩ := decodeAcronyms_mem ha a ham
        exact ne_empty_of_one_le_length (parseAcronymJson_bounds hje)

/-- Witness for C5 (amended) on a concrete validated file pair. -/
theorem validated_content_nonempty_fields_witness :
    (∀ s ∈ (⟨[⟨"1", "t", "C"⟩], [⟨"x", "T", "M"⟩]⟩ : ContentConfig).sentences,
      s.id ≠ "" ∧ s.category ≠ "") ∧
    ∀ a ∈ (⟨[⟨"1", "t", "C"⟩], [⟨"x", "T", "M"⟩]⟩ : ContentConfig).acronyms,
      a.id ≠ "" :=
  validated_content_nonempty_fields sampleWrappedSentences sampleBareAcronyms
    ⟨[⟨"1", "t", "C"⟩], [⟨"x", "T", "M"⟩]⟩ (by decide)

/-- C4 counterexample: a sentence whose category matches the query up to
case is returned by the backend loader but not by the frontend
`getSentencesByCategory`, and an empty category string returns a
non-matching sentence. -/
theorem category_filter_case_counterexample :
    ("Kubernetes" : String) ≠ "kubernetes" ∧
    jsToLower "Kubernetes" = jsToLower "kubernetes" ∧
    getSentencesByCategory [⟨"1", "t", "Kubernetes"⟩] "kubernetes" = [] ∧
    loaderGetSentences ⟨[⟨"1", "t", "Kubernetes"⟩], []⟩ (some "kubernetes") =
      [⟨"1", "t", "Kubernetes"⟩] ∧
    loaderGetSentences ⟨[⟨"1", "t", "Kubernetes"⟩], []⟩ (some "") =
      [⟨"1", "t", "Kubernetes"⟩] ∧
    jsToLower "Kubernetes" ≠ jsToLower "" := by
  refine ⟨by decide, by decide, by decide, by decide, by decide, by decide⟩

/-- C4 as amended: for a non-empty category the backend loader returns
exactly the case-insensitive matches (an unknown category yields the empty
list, never an error); an absent or empty category returns all sentences;
the frontend `getSentencesByCategory` instead returns exactly the
case-sensitive (exact) matches. -/
theorem category_filter_spec (content : ContentConfig)
    (sentences : List Sentence) (c : String) (hc : c ≠ "") :
    (∀ s, s ∈ loaderGetSentences content (some c) ↔
      s ∈ content.sentences ∧ jsToLower s.category = jsToLower c) ∧
    loaderGetSentences content none = content.sentences ∧
    loaderGetSentences content (some "") = content.sentences ∧
    (∀ s, s ∈ getSentencesByCategory sentences c ↔
      s ∈ sentences ∧ s.category = c) := by
  refine ⟨?_, rfl, rfl, ?_⟩
  · intro s
    simp only [loaderGetSentences, if_neg hc, List.mem_filter, beq_iff_eq]
  · intro s
    simp only [getSentencesByCategory, List.mem_filter, beq_iff_eq]

/-- Witness for C4 (amended) at an uppercase query. -/
theorem category_filter_spec_witness :
    (⟨"1", "t", "Kubernetes"⟩ : Sentence) ∈
        loaderGetSentences ⟨[⟨"1", "t", "Kubernetes"⟩], []⟩ (some "KUBERNETES") ↔
      (⟨"1", "t", "Kubernetes"⟩ : Sentence) ∈ [(⟨"1", "t", "Kubernetes"⟩ : Sentence)] ∧
        jsToLower (⟨"1", "t", "Kubernetes"⟩ : Sentence).category =
          jsToLower "KUBERNETES" :=
  (category_filter_spec ⟨[⟨"1", "t", "Kubernetes"⟩], []⟩ [] "KUBERNETES"
    (by decide)).1 ⟨"1", "t", "Kubernetes"⟩

/-- C9: the loader accepts both the wrapped-object form and the bare
top-level-array form of each content file; the extracted array is what is
validated (the parse outcome equals the parse of the bare arrays), and on
success exactly the decoded arrays are cached. -/
theorem load_accepts_wrapped_and_bare (sArr aArr : List Json)
    (sFile aFile : Json)
    (hs : sFile = Json.arr sArr ∨ sFile = Json.obj [("sentences", Json.arr sArr)])
    (ha : aFile = Json.arr aArr ∨ aFile = Json.obj [("acronyms", Json.arr aArr)]) :
    extractField sFile "sentences" = Json.arr sArr ∧
    extractField aFile "acronyms" = Json.arr aArr ∧
    parseContentConfig sFile aFile =
      parseContentConfig (Json.arr sArr) (Json.arr aArr) ∧
    ∀ (opts : LoaderOptions) (st : LoaderState) (now : Int) (cfg : ContentConfig),
      parseContentConfig sFile aFile = some cfg →
      loadContent opts st (.ok sFile aFile) now = ⟨⟨some cfg, now⟩, false⟩ := by
  have hes : extractField sFile "sentences" = Json.arr sArr := by
    rcases hs with rfl | rfl <;> rfl
  have hea : extractField aFile "acronyms" = Json.arr aArr := by
    rcases ha with rfl | rfl <;> rfl
  refine ⟨hes, hea, ?_, ?_⟩
  · unfold parseContentConfig
    dsimp only
    rw [hes, hea]
    rfl
  · intro opts st now cfg hcfg
    simp only [loadContent, loadAttempt, hcfg]

/-- Witness for C9: a wrapped sentences file and a bare acronyms array load
into the cache. -/
theorem load_accepts_wrapped_and_bare_witness :
    extractField sampleWrappedSentences "sentences" = Json.arr [sampleSentenceJson] ∧
    extractField sampleBareAcronyms "acronyms" = Json.arr [sampleAcronymJson] ∧
    parseContentConfig sampleWrappedSentences sampleBareAcronyms =
      parseContentConfig (Json.arr [sampleSentenceJson]) (Json.arr [sampleAcronymJson]) ∧
    loadContent ⟨1000, none⟩ ⟨none, 0⟩
        (.ok sampleWrappedSentences sampleBareAcronyms) 5 =
      ⟨⟨some ⟨[⟨"1", "t", "C"⟩], [⟨"x", "T", "M"⟩]⟩, 5⟩, false⟩ := by
  obtain ⟨h1, h2, h3, h4⟩ := load_accepts_wrapped_and_bare
    [sampleSentenceJson] [sampleAcronymJson] sampleWrappedSentences
    sampleBareAcronyms (Or.inr rfl) (Or.inl rfl)
  exact ⟨h1, h2, h3, h4 ⟨1000, none⟩ ⟨none, 0⟩ 5
    ⟨[⟨"1", "t", "C"⟩], [⟨"x", "T", "M"⟩]⟩ (by decide)⟩

/-- When the pool is strictly longer than the history and pool ids are
distinct, filtering out the ids in the history cannot empty the pool. -/
theorem filter_unshown_ne_nil {α : Type} (idOf : α → String) (pool : List α)
    (hist : List String) (hnd : (pool.map idOf).Nodup)
    (hlen : hist.length < pool.length) :
    pool.filter (fun x => !(hist.contains (idOf x))) ≠ [] := by
  intro hnil
  have hall : ∀ x ∈ pool, idOf x ∈ hist := by
    intro x hx
    have hx2 := List.filter_eq_nil_iff.mp hnil x hx
    simpa using hx2
  have hsub : (pool.map idOf) ⊆ hist := by
    intro y hy
    obtain ⟨x, hx, rfl⟩ := List.mem_map.mp hy
    exact hall x hx
  have hle := (List.subperm_of_subset hnd hsub).length_le
  rw [List.length_map] at hle
  omega

/-- C2 counterexample: with a category pool of exactly `maxHistorySize`
items (2), a reachable sequence of three calls returns, on the third call,
the most recently shown item — even though the pool is not smaller than the
history window. -/
theorem getRandomSentence_repeats_when_pool_eq_window :
    getRandomSentence [⟨"1", "a", "C"⟩, ⟨"2", "b", "C"⟩] [] 2 none 0 =
      some (⟨"1", "a", "C"⟩, ["1"]) ∧
    getRandomSentence [⟨"1", "a", "C"⟩, ⟨"2", "b", "C"⟩] ["1"] 2 none 0 =
      some (⟨"2", "b", "C"⟩, ["2", "1"]) ∧
    getRandomSentence [⟨"1", "a", "C"⟩, ⟨"2", "b", "C"⟩] ["2", "1"] 2 none 1 =
      some (⟨"2", "b", "C"⟩, ["2", "1"]) ∧
    ¬ ([(⟨"1", "a", "C"⟩ : Sentence), ⟨"2", "b", "C"⟩].length < 2) ∧
    (⟨"2", "b", "C"⟩ : Sentence).id ∈ ["2", "1"] := by
  exact ⟨by decide, by decide, by decide, by decide, by decide⟩

/-- C2 as amended: whenever the pool of available items for the requested
category is strictly larger than `maxHistorySize` (and ids are distinct),
the selected item's id lies outside the entire history — in particular it
differs from the most recently shown ids; with a pool of at most
`maxHistorySize` items a repeat of even the most recent item is possible. -/
theorem getRandom_no_recent_repeat (sentences : List Sentence)
    (acronyms : List Acronym) (histS histA : List String) (maxH : Nat)
    (cat : Option String) (randS randA : Nat)
    (hlenS : histS.length ≤ maxH)
    (hndS : ((getFilteredSentences sentences cat).map Sentence.id).Nodup)
    (hpoolS : maxH < (getFilteredSentences sentences cat).length)
    (hlenA : histA.length ≤ maxH)
    (hndA : (acronyms.map Acronym.id).Nodup)
    (hpoolA : maxH < acronyms.length) :
    (∀ s h', getRandomSentence sentences histS maxH cat randS = some (s, h') →
      s.id ∉ histS) ∧
    (∀ a h', getRandomAcronym acronyms histA maxH randA = some (a, h') →
      a.id ∉ histA) := by
  constructor
  · intro s h' hsel
    have hfne := filter_unshown_ne_nil Sentence.id (getFilteredSentences sentences cat)
      histS hndS (lt_of_le_of_lt hlenS hpoolS)
    have hposPool : 0 < (getFilteredSentences sentences cat).length :=
      lt_of_le_of_lt (Nat.zero_le _) hpoolS
    have hnonempty : ¬ (getFilteredSentences sentences cat).isEmpty = true := by
      simp only [List.isEmpty_iff]
      exact List.ne_nil_of_length_pos hposPool
    have hpos : ((getFilteredSentences sentences cat).filter
        (fun x => !(histS.contains x.id))).length > 0 :=
      List.length_pos.mpr hfne
    simp only [getRandomSentence] at hsel
    rw [if_neg hnonempty, if_pos hpos] at hsel
    cases hget : ((getFilteredSentences sentences cat).filter
        (fun x => !(histS.contains x.id)))[randS % ((getFilteredSentences
          sentences cat).filter (fun x => !(histS.contains x.id))).length]? with
    | none =>
      rw [hget] at hsel
      exact Option.noConfusion hsel
    | some s0 =>
      rw [hget] at hsel
      cases hsel
      have hmem := List.getElem?_mem hget
      have hprop := (List.mem_filter.mp hmem).2
      simpa using hprop
  · intro a h' hsel
    have hfne := filter_unshown_ne_nil Acronym.id acronyms histA hndA
      (lt_of_le_of_lt hlenA hpoolA)
    have hposPool : 0 < acronyms.length := lt_of_le_of_lt (Nat.zero_le _) hpoolA
    have hnonempty : ¬ acronyms.isEmpty = true := by
      simp only [List.isEmpty_iff]
      exact List.ne_nil_of_length_pos hposPool
    have hpos : (acronyms.filter (fun x => !(histA.contains x.id))).length > 0 :=
      List.length_pos.mpr hfne
    simp only [getRandomAcronym] at hsel
    rw [if_neg hnonempty, if_pos hpos] at hsel
    cases hget : (acronyms.filter (fun x => !(histA.contains x.id)))[randA %
        (acronyms.filter (fun x => !(histA.contains x.id))).length]? with
    | none =>
      rw [hget] at hsel
      exact Option.noConfusion hsel
    | some a0 =>
      rw [hget] at hsel
      cases hsel
      have hmem := List.getElem?_mem hget
      have hprop := (List.mem_filter.mp hmem).2
      simpa using hprop

/-- Witness for C2 (amended) with three-item pools and a full two-item
history. -/
theorem getRandom_no_recent_repeat_witness :
    (⟨"3", "c", "C"⟩ : Sentence).id ∉ ["1", "2"] ∧
    (⟨"1", "T", "M"⟩ : Acronym).id ∉ ([] : List String) :=
  ⟨(getRandom_no_recent_repeat
      [⟨"1", "a", "C"⟩, ⟨"2", "b", "C"⟩, ⟨"3", "c", "C"⟩]
      [⟨"1", "T", "M"⟩, ⟨"2", "U", "N"⟩, ⟨"3", "V", "O"⟩]
      ["1", "2"] [] 2 none 0 0 (by decide) (by decide) (by decide)
      (by decide) (by decide) (by decide)).1
    ⟨"3", "c", "C"⟩ ["3", "1"] (by decide),
  (getRandom_no_recent_repeat
      [⟨"1", "a", "C"⟩, ⟨"2", "b", "C"⟩, ⟨"3", "c", "C"⟩]
      [⟨"1", "T", "M"⟩, ⟨"2", "U", "N"⟩, ⟨"3", "V", "O"⟩]
      ["1", "2"] [] 2 none 0 0 (by decide) (by decide) (by decide)
      (by decide) (by decide) (by decide)).2
    ⟨"1", "T", "M"⟩ ["1"] (by decide)⟩

end ConferenceGames
